import Mathlib

/-!
Verification of the `image-resize` service (`src/main.rs`): a shallow
embedding of the request handler pipeline — source acquisition (local
filesystem, then remote CDN), decode, dimension planning, resize, and the
response policy — together with theorems checking the natural-language
specification against it.

Modelling conventions:
* Rust `f32` arithmetic is modelled over `ℚ`: an IEEE-754 binary32 value is
  the rational obtained by rounding to 24 significant bits, round to
  nearest, ties to even (`roundF32`).  All quantities that arise in the
  handler are positive normal numbers far below the overflow threshold, so
  the model needs no NaN/infinity/subnormal cases.
* Strings and paths are `List Char` (request paths are ASCII, so Rust's
  byte slicing `&path[1..]` coincides with dropping one character).
* Effects are passed in explicitly through `Env`: the filesystem, the
  outbound HTTP client, the image decoder and the resizer result.
* A `.unwrap()` on `None`/failure (a Rust panic) is modelled by the result
  `none`; `some r` means the handler returns the response `r`.
-/

namespace ImageResize

/-! ### IEEE-754 binary32 model -/

/-- Round a rational to the nearest integer, ties to even (the IEEE-754
default rounding used by Rust `f32` arithmetic). -/
def rnEven (q : ℚ) : ℤ :=
  if Int.fract q < 1/2 then ⌊q⌋
  else if 1/2 < Int.fract q then ⌊q⌋ + 1
  else if ⌊q⌋ % 2 = 0 then ⌊q⌋ else ⌊q⌋ + 1

/-- Binary exponent of a positive rational: the unique `e` with
`2 ^ e ≤ q < 2 ^ (e + 1)`. -/
def qexp (q : ℚ) : ℤ :=
  if 1 ≤ q then (Nat.log2 ⌊q⌋.toNat : ℤ)
  else if (2 : ℚ) ^ (-(Nat.log2 ⌊q⁻¹⌋.toNat : ℤ)) ≤ q then
    -(Nat.log2 ⌊q⁻¹⌋.toNat : ℤ)
  else -((Nat.log2 ⌊q⁻¹⌋.toNat : ℤ) + 1)

/-- Round a rational to the nearest IEEE-754 binary32 value (24-bit
significand, round to nearest, ties to even), as a rational.  Faithful for
normal, non-overflowing magnitudes, which covers every value the handler
computes. -/
def roundF32 (q : ℚ) : ℚ :=
  if q = 0 then 0
  else if 0 < q then (rnEven (q / 2 ^ (qexp q - 23)) : ℚ) * 2 ^ (qexp q - 23)
  else -((rnEven (-q / 2 ^ (qexp (-q) - 23)) : ℚ) * 2 ^ (qexp (-q) - 23))

/-- Rust `u32 as f32` (rounds to the nearest representable value). -/
def f32ofNat (n : ℕ) : ℚ := roundF32 (n : ℚ)

/-- Rust `f32` division (correctly rounded, IEEE-754). -/
def f32div (a b : ℚ) : ℚ := roundF32 (a / b)

/-- Rust `f32` multiplication (correctly rounded, IEEE-754). -/
def f32mul (a b : ℚ) : ℚ := roundF32 (a * b)

/-- Rust `f32 as u32`: truncate toward zero, saturating at `u32::MAX`
(negative values saturate to 0, which `Int.toNat` provides). -/
def f32toU32 (q : ℚ) : ℕ := min ⌊q⌋.toNat 4294967295

/-- The scaled dimension computed in `main.rs` lines 180–181 / 183–184:
`ratio = req as f32 / srcGiven as f32` and then
`srcOther as f32 * ratio`, all in `f32`. -/
def scaledDim (srcGiven srcOther req : ℕ) : ℚ :=
  f32mul (f32ofNat srcOther) (f32div (f32ofNat req) (f32ofNat srcGiven))

/-! ### Query parameters and dimension planning (`main.rs` 173–188, 243–249) -/

/-- The query parameters (`main.rs` 243–249).  In the source each field is
`Option<NonZeroU32>`; positivity, where it matters, appears as a
hypothesis. -/
structure Params where
  width : Option ℕ
  height : Option ℕ
  w : Option ℕ
  h : Option ℕ
deriving DecidableEq

/-- The dimension-planning block (`main.rs` 173–188): long names win over
short aliases via `Option::or`; both present are used verbatim; one present
scales the other axis in `f32` and truncates with `as u32`; neither present
divides both source dimensions by 4 (truncating integer division). -/
def planDims (srcW srcH : ℕ) (p : Params) : ℕ × ℕ :=
  match Option.or p.width p.w, Option.or p.height p.h with
  | some wv, some hv => (wv, hv)
  | some wv, none => (wv, f32toU32 (scaledDim srcW srcH wv))
  | none, some hv => (f32toU32 (scaledDim srcH srcW hv), hv)
  | none, none => (srcW / 4, srcH / 4)

/-! ### Configuration, environment and source acquisition (`main.rs` 94–140) -/

/-- The CLI configuration captured by the handler (`main.rs` 27–36); the
port is transport plumbing and omitted. -/
structure Cli where
  remote_cdn : Option (List Char)
  local_folder : Option (List Char)

/-- Result of `tokio::fs::read`: bytes, or an error that either is or is
not `ErrorKind::NotFound`. -/
inductive FsResult where
  | ok (data : List ℕ)
  | err (isNotFound : Bool)
deriving DecidableEq

/-- Result of `client.get(url).send()` followed by `resp.bytes()`: a 2xx
response whose bytes arrive, a 2xx response whose body read fails, a
non-2xx response, or a network error. -/
inductive NetResult where
  | success (data : List ℕ)
  | bytesErr
  | non2xx
  | netErr
deriving DecidableEq

/-- The handler's effectful collaborators, passed explicitly: the
filesystem keyed by full path, the network keyed by URL, the image decoder
(`image::load_from_memory`, abstracted to its dimensions on success), and
whether `resizer.resize` succeeds.  The JPEG encoder's `.unwrap()` is
modelled as always succeeding, per its input invariants. -/
structure Env where
  fs : List Char → FsResult
  net : List Char → NetResult
  decode : List ℕ → Option (ℕ × ℕ)
  resizeOk : Bool

/-- Rust `PathBuf::push` (`main.rs` 104–105): an absolute path replaces the
base; otherwise a separator is inserted when the base lacks one. -/
def pathPush (base p : List Char) : List Char :=
  if p.head? = some '/' then p
  else if base = [] ∨ base.getLast? = some '/' then base ++ p
  else base ++ '/' :: p

/-- The local-filesystem branch (`main.rs` 102–115): bytes on a successful
read; every error — NotFound or otherwise — leaves `bytes` as `None`. -/
def localLookup (cfg : Cli) (env : Env) (path : List Char) : Option (List ℕ) :=
  match cfg.local_folder with
  | none => none
  | some folder =>
    match env.fs (pathPush folder path) with
    | .ok data => some data
    | .err _ => none

/-- The URL construction (`main.rs` 118–123):
`url.chars().last().unwrap()` — a Rust panic (`none`) on an empty base —
then `&path[1..]` is appended when the base ends in `'/'` (a panic when
`path` is empty), else `path` itself. -/
def joinUrl (base path : List Char) : Option (List Char) :=
  match base.getLast? with
  | none => none
  | some c =>
    if c = '/' then
      if path = [] then none else some (base ++ path.drop 1)
    else some (base ++ path)

/-- Source acquisition (`main.rs` 102–140): local first; the remote CDN is
consulted only when `bytes` is still `None`.  The boolean records whether
the remote origin was contacted; `none` is a panic inside the URL join. -/
def acquire (cfg : Cli) (env : Env) (path : List Char) :
    Option (Option (List ℕ) × Bool) :=
  match localLookup cfg env path with
  | some data => some (some data, false)
  | none =>
    match cfg.remote_cdn with
    | none => some (none, false)
    | some base =>
      match joinUrl base path with
      | none => none
      | some url =>
        match env.net url with
        | .success data => some (some data, true)
        | _ => some (none, true)

/-! ### Outcome and response policy (`main.rs` 144–161, 190–240) -/

/-- The pipeline outcome; success records source and target dimensions. -/
inductive Outcome where
  | success (srcW srcH dstW dstH : ℕ)
  | sourceNotFound
  | decodeFailed
  | resizeFailed
deriving DecidableEq

/-- An HTTP response as far as the claims are concerned: status code,
`Cache-Control` value, and `Content-Type` when one is set.  Bodies (JPEG
bytes, short diagnostics) are abstracted away. -/
structure HttpResponse where
  status : ℕ
  cacheControl : String
  contentType : Option String
deriving DecidableEq

/-- The response policy exactly as the four branches of `main.rs` build it
(lines 144–150, 152–161, 197–205, 234–240).  Note the code writes the
directive `s-max-age`, with a hyphen between `max` and `age`. -/
def respond : Outcome → HttpResponse
  | .success _ _ _ _ => ⟨200, "public, s-max-age=2592000", some "image/jpeg"⟩
  | .sourceNotFound => ⟨404, "public, s-max-age=28800", none⟩
  | .decodeFailed => ⟨500, "public, s-max-age=604800", none⟩
  | .resizeFailed => ⟨500, "public, s-max-age=28800", none⟩

/-- The whole pipeline (`main.rs` 94–240) from acquired bytes to outcome:
`none` is a panic — the `NonZeroU32::new(..).unwrap()` calls on source
(line 166–167) and target (lines 191–192) dimensions included. -/
def pipeline (cfg : Cli) (env : Env) (p : Params) (path : List Char) :
    Option Outcome :=
  match acquire cfg env path with
  | none => none
  | some (none, _) => some .sourceNotFound
  | some (some data, _) =>
    match env.decode data with
    | none => some .decodeFailed
    | some (w, h) =>
      if w = 0 ∨ h = 0 then none
      else
        match planDims w h p with
        | (dstW, dstH) =>
          if dstW = 0 ∨ dstH = 0 then none
          else if env.resizeOk then some (.success w h dstW dstH)
          else some .resizeFailed

/-- The handler: the pipeline's outcome rendered by the response policy. -/
def handler (cfg : Cli) (env : Env) (p : Params) (path : List Char) :
    Option HttpResponse :=
  (pipeline cfg env p path).map respond

/-! ### Definitions taken from the specification's words (for refinement
claims only) -/

/-- Nearest-integer rounding, ties away from zero — the rounding the
specification prescribes for the single-dimension cases. -/
def roundHalfAwayFromZero (q : ℚ) : ℤ :=
  if 0 ≤ q then ⌊q + 1/2⌋ else ⌈q - 1/2⌉

/-- The scaled dimension as the specification words it: the same
floating-point ratio computation, but rounded to the nearest integer (ties
away from zero) instead of truncated. -/
def specScaledDim (srcGiven srcOther req : ℕ) : ℤ :=
  roundHalfAwayFromZero (scaledDim srcGiven srcOther req)

/-- Drop every leading `'/'`. -/
def dropLeadingSlashes (l : List Char) : List Char := l.dropWhile (· = '/')

/-- Drop every trailing `'/'`. -/
def dropTrailingSlashes (l : List Char) : List Char :=
  (l.reverse.dropWhile (· = '/')).reverse

/-- The join the specification words describe: base and relative path with
exactly one separating slash between them. -/
def oneSlashJoin (base path : List Char) : List Char :=
  dropTrailingSlashes base ++ '/' :: dropLeadingSlashes path

/-! ### Helper lemmas for the binary32 model -/

lemma log2_eq_of {n k : ℕ} (hn : n ≠ 0) (h1 : 2 ^ k ≤ n) (h2 : n < 2 ^ (k + 1)) :
    Nat.log2 n = k := by
  have a := (Nat.le_log2 hn).2 h1
  have b := (Nat.log2_lt hn).2 h2
  omega

/-- `qexp` is characterised by the bracketing `2 ^ e ≤ q < 2 ^ (e + 1)`. -/
lemma qexp_unique (q : ℚ) (e : ℤ) (h1 : 2 ^ e ≤ q) (h2 : q < 2 ^ (e + 1)) :
    qexp q = e := by
  have h12 : (1:ℚ) < 2 := one_lt_two
  have hq : 0 < q := lt_of_lt_of_le (zpow_pos two_pos e) h1
  by_cases hge : 1 ≤ q
  · have he0 : 0 ≤ e := by
      by_contra hneg
      push_neg at hneg
      have hle : e + 1 ≤ 0 := by omega
      have hb : (2:ℚ) ^ (e+1) ≤ 2 ^ (0:ℤ) := zpow_le_zpow_right₀ h12.le hle
      rw [zpow_zero] at hb
      exact absurd (lt_of_lt_of_le h2 hb) (not_lt.mpr hge)
    lift e to ℕ using he0 with e'
    rw [zpow_natCast] at h1
    have h2' : q < 2 ^ (e' + 1 : ℕ) := by
      have hcast : ((e' : ℤ) + 1) = ((e' + 1 : ℕ) : ℤ) := by push_cast; ring
      rw [hcast, zpow_natCast] at h2
      exact h2
    have hfl1 : (1:ℤ) ≤ ⌊q⌋ := Int.le_floor.mpr (by exact_mod_cast hge)
    have htn : ((⌊q⌋.toNat : ℤ)) = ⌊q⌋ := Int.toNat_of_nonneg (by omega)
    have hn0 : ⌊q⌋.toNat ≠ 0 := by omega
    have hlowZ : (2:ℤ) ^ e' ≤ ⌊q⌋ := Int.le_floor.mpr (by push_cast; exact h1)
    have huppZ : ⌊q⌋ < (2:ℤ) ^ (e' + 1) := Int.floor_lt.mpr (by push_cast; exact h2')
    have hc1 : ((2 ^ e' : ℕ) : ℤ) = (2:ℤ) ^ e' := by push_cast; ring
    have hc2 : ((2 ^ (e'+1) : ℕ) : ℤ) = (2:ℤ) ^ (e'+1) := by push_cast; ring
    have hlow : 2 ^ e' ≤ ⌊q⌋.toNat := by omega
    have hupp : ⌊q⌋.toNat < 2 ^ (e' + 1) := by omega
    have := log2_eq_of hn0 hlow hupp
    simp only [qexp, if_pos hge, this]
  · push_neg at hge
    have he1 : e + 1 ≤ 0 := by
      by_contra hpos
      push_neg at hpos
      have h0e : (0:ℤ) ≤ e := by omega
      have hb : (2:ℚ) ^ (0:ℤ) ≤ 2 ^ e := zpow_le_zpow_right₀ h12.le h0e
      rw [zpow_zero] at hb
      exact absurd (lt_of_le_of_lt (hb.trans h1) hge) (lt_irrefl 1)
    have hjnn : (0:ℤ) ≤ -(e+1) := by omega
    set j : ℕ := (-(e+1)).toNat with hjdef
    have hjz : ((j:ℤ)) = -(e+1) := Int.toNat_of_nonneg hjnn
    have hinvlow : (2:ℚ) ^ j < q⁻¹ := by
      have hstep := (inv_lt_inv₀ (zpow_pos two_pos (e+1)) hq).mpr h2
      rw [← zpow_neg] at hstep
      have hjz' : ((j:ℤ)) = -(e+1) := hjz
      rw [← hjz', zpow_natCast] at hstep
      exact hstep
    have hinvupp : q⁻¹ ≤ (2:ℚ) ^ (j+1) := by
      have hstep := (inv_le_inv₀ hq (zpow_pos two_pos e)).mpr h1
      rw [← zpow_neg] at hstep
      have hje : (-e) = ((j + 1 : ℕ) : ℤ) := by push_cast; omega
      rw [hje, zpow_natCast] at hstep
      exact hstep
    have hm1 : (2:ℤ) ^ j ≤ ⌊q⁻¹⌋ := Int.le_floor.mpr (by push_cast; exact hinvlow.le)
    have hm2 : ⌊q⁻¹⌋ ≤ (2:ℤ) ^ (j+1) := by
      have hcast : q⁻¹ ≤ (((2:ℤ) ^ (j+1) : ℤ) : ℚ) := by push_cast; exact hinvupp
      have := Int.floor_le_floor hcast
      rwa [Int.floor_intCast] at this
    have hjpos : (0:ℤ) < (2:ℤ) ^ j := by positivity
    have hcB1 : ((2 ^ j : ℕ) : ℤ) = (2:ℤ) ^ j := by push_cast; ring
    have hcB2 : ((2 ^ (j+1) : ℕ) : ℤ) = (2:ℤ) ^ (j+1) := by push_cast; ring
    have htm : ((⌊q⁻¹⌋.toNat : ℤ)) = ⌊q⁻¹⌋ := Int.toNat_of_nonneg (by omega)
    have hm0 : ⌊q⁻¹⌋.toNat ≠ 0 := by omega
    have hmlow : 2 ^ j ≤ ⌊q⁻¹⌋.toNat := by omega
    have hmupp : ⌊q⁻¹⌋.toNat ≤ 2 ^ (j+1) := by omega
    rcases eq_or_lt_of_le hmupp with heq | hlt
    · have hk : Nat.log2 ⌊q⁻¹⌋.toNat = j + 1 := by rw [heq, Nat.log2_two_pow]
      have hqeq : q⁻¹ = (2:ℚ) ^ (j+1) := by
        apply le_antisymm hinvupp
        have hfloor : ((⌊q⁻¹⌋ : ℤ) : ℚ) ≤ q⁻¹ := Int.floor_le _
        rw [← htm, heq] at hfloor
        calc (2:ℚ) ^ (j+1) = (((2 ^ (j+1) : ℕ) : ℤ) : ℚ) := by push_cast; ring
        _ ≤ q⁻¹ := hfloor
      have hq2e : q = (2:ℚ) ^ e := by
        have hii : q = (q⁻¹)⁻¹ := (inv_inv q).symm
        rw [hii, hqeq, ← zpow_natCast, ← zpow_neg]
        congr 1
        omega
      have hexp : (-((j + 1 : ℕ) : ℤ)) = e := by push_cast; omega
      simp only [qexp, hk]
      rw [if_neg (not_le.mpr hge)]
      have hcond : (2 : ℚ) ^ (-((j + 1 : ℕ) : ℤ)) ≤ q := by
        rw [hq2e, ← hexp]
      rw [if_pos hcond]
      exact hexp
    · have hk : Nat.log2 ⌊q⁻¹⌋.toNat = j := log2_eq_of hm0 hmlow hlt
      simp only [qexp, hk]
      rw [if_neg (not_le.mpr hge)]
      have hcond : ¬ (2 : ℚ) ^ (-(j : ℤ)) ≤ q := by
        push_neg
        have hje : (-(j:ℤ)) = e + 1 := by omega
        rw [hje]
        exact h2
      rw [if_neg hcond]
      omega

lemma roundF32_eval (q : ℚ) (e : ℤ) (h1 : 2 ^ e ≤ q) (h2 : q < 2 ^ (e + 1)) :
    roundF32 q = (rnEven (q / 2 ^ (e - 23)) : ℚ) * 2 ^ (e - 23) := by
  have hq : 0 < q := lt_of_lt_of_le (zpow_pos two_pos e) h1
  rw [roundF32, if_neg (ne_of_gt hq), if_pos hq, qexp_unique q e h1 h2]

/-- A value whose 24-bit scaling is an integer is returned unchanged by the
rounding — the exactly-representable case. -/
lemma roundF32_exact (q : ℚ) (e : ℤ) (h1 : 2 ^ e ≤ q) (h2 : q < 2 ^ (e + 1))
    (h3 : Int.fract (q / 2 ^ (e - 23)) = 0) : roundF32 q = q := by
  rw [roundF32_eval q e h1 h2, rnEven, if_pos (by rw [h3]; norm_num)]
  have hfl : ((⌊q / 2 ^ (e - 23)⌋ : ℤ) : ℚ) = q / 2 ^ (e - 23) := by
    have := Int.fract_add_floor (q / 2 ^ (e - 23))
    rw [h3, zero_add] at this
    exact this
  rw [hfl]
  exact div_mul_cancel₀ q (by positivity)

lemma rnEven_nonneg {q : ℚ} (h : 0 ≤ q) : 0 ≤ rnEven q := by
  have hf : (0:ℤ) ≤ ⌊q⌋ := Int.floor_nonneg.mpr h
  rw [rnEven]
  split_ifs <;> omega

lemma roundF32_nonneg {q : ℚ} (h : 0 ≤ q) : 0 ≤ roundF32 q := by
  rcases eq_or_lt_of_le h with heq | hpos
  · simp [roundF32, ← heq]
  · rw [roundF32, if_neg (ne_of_gt hpos), if_pos hpos]
    apply mul_nonneg
    · exact_mod_cast rnEven_nonneg (le_of_lt (div_pos hpos (zpow_pos two_pos _)))
    · exact le_of_lt (zpow_pos two_pos _)

lemma f32ofNat_nonneg (n : ℕ) : 0 ≤ f32ofNat n :=
  roundF32_nonneg (Nat.cast_nonneg n)

lemma scaledDim_nonneg (a b c : ℕ) : 0 ≤ scaledDim a b c := by
  rw [scaledDim, f32mul]
  apply roundF32_nonneg
  apply mul_nonneg (f32ofNat_nonneg b)
  rw [f32div]
  apply roundF32_nonneg
  exact div_nonneg (f32ofNat_nonneg c) (f32ofNat_nonneg a)

/-- Under the `u32` bound, `f32toU32` is exactly truncation toward zero. -/
lemma f32toU32_trunc (x : ℚ) (h0 : 0 ≤ x) (hlt : x < 2 ^ 32) :
    ((f32toU32 x : ℚ)) ≤ x ∧ x < f32toU32 x + 1 := by
  have hfl0 : (0:ℤ) ≤ ⌊x⌋ := Int.floor_nonneg.mpr h0
  have hit : ⌊x⌋ < 2 ^ 32 := Int.floor_lt.mpr (by exact_mod_cast hlt)
  have hmin : f32toU32 x = ⌊x⌋.toNat := by
    rw [f32toU32]
    apply min_eq_left
    omega
  have hcast : ((⌊x⌋.toNat : ℚ)) = ((⌊x⌋ : ℤ) : ℚ) := by
    exact_mod_cast congrArg (fun z : ℤ => (z : ℚ)) (Int.toNat_of_nonneg hfl0)
  rw [hmin]
  constructor
  · rw [hcast]
    exact Int.floor_le x
  · rw [hcast]
    exact Int.lt_floor_add_one x

/-! ### Concrete binary32 evaluations used by the claims -/

lemma f32ofNat_one : f32ofNat 1 = 1 := by
  rw [f32ofNat, Nat.cast_one]
  exact roundF32_exact 1 0 (by norm_num) (by norm_num) (by norm_num [Int.fract])

lemma f32ofNat_two : f32ofNat 2 = 2 := by
  rw [f32ofNat, Nat.cast_ofNat]
  exact roundF32_exact 2 1 (by norm_num) (by norm_num) (by norm_num [Int.fract])

lemma f32ofNat_three : f32ofNat 3 = 3 := by
  rw [f32ofNat, Nat.cast_ofNat]
  exact roundF32_exact 3 1 (by norm_num) (by norm_num) (by norm_num [Int.fract])

lemma f32ofNat_400 : f32ofNat 400 = 400 := by
  rw [f32ofNat, Nat.cast_ofNat]
  exact roundF32_exact 400 8 (by norm_num) (by norm_num) (by norm_num [Int.fract])

lemma f32ofNat_600 : f32ofNat 600 = 600 := by
  rw [f32ofNat, Nat.cast_ofNat]
  exact roundF32_exact 600 9 (by norm_num) (by norm_num) (by norm_num [Int.fract])

lemma f32ofNat_800 : f32ofNat 800 = 800 := by
  rw [f32ofNat, Nat.cast_ofNat]
  exact roundF32_exact 800 9 (by norm_num) (by norm_num) (by norm_num [Int.fract])

lemma roundF32_half : roundF32 (1/2) = 1/2 :=
  roundF32_exact (1/2) (-1) (by norm_num) (by norm_num) (by norm_num [Int.fract])

lemma scaledDim_2_3_1 : scaledDim 2 3 1 = 3/2 := by
  rw [scaledDim, f32ofNat_one, f32ofNat_two, f32ofNat_three, f32div]
  norm_num [roundF32_half, f32mul]
  exact roundF32_exact (3/2) 0 (by norm_num) (by norm_num) (by norm_num [Int.fract])

lemma scaledDim_2_2_1 : scaledDim 2 2 1 = 1 := by
  rw [scaledDim, f32ofNat_one, f32ofNat_two, f32div]
  norm_num [roundF32_half, f32mul]
  exact roundF32_exact 1 0 (by norm_num) (by norm_num) (by norm_num [Int.fract])

lemma scaledDim_800_600_400 : scaledDim 800 600 400 = 300 := by
  rw [scaledDim, f32ofNat_400, f32ofNat_600, f32ofNat_800, f32div]
  have h48 : (400:ℚ)/800 = 1/2 := by norm_num
  rw [h48, roundF32_half, f32mul]
  norm_num
  exact roundF32_exact 300 8 (by norm_num) (by norm_num) (by norm_num [Int.fract])

/-! ### Claim theorems -/

/-- Claim C1 (code-bug evidence): the planner does not clamp to a minimum
of 1.  For a decoded 3×3 source and no requested dimensions the truncating
division by 4 yields the target 0×0, and the handler panics at
`NonZeroU32::new(dst_width).unwrap()` (`main.rs` line 191) instead of
reaching the resize step. -/
theorem C1_default_dims_unclamped_panic :
    planDims 3 3 ⟨none, none, none, none⟩ = (0, 0) ∧
    handler ⟨none, some "imgs".toList⟩
      ⟨fun _ => .ok [7], fun _ => .netErr, fun _ => some (3, 3), true⟩
      ⟨none, none, none, none⟩ "/pic.jpg".toList = none :=
  ⟨rfl, rfl⟩

/-- Claim C2 (code-bug evidence): every branch of the response policy
emits the directive `s-max-age` (an unknown token to HTTP caches), not the
standard `s-maxage` the specification's policy table prescribes; a decode
failure run carries the misspelt 7-day value end to end. -/
theorem C2_cache_directive_misspelt :
    (respond (.success 800 600 400 300)).cacheControl
      = "public, s-max-age=2592000" ∧
    (respond .sourceNotFound).cacheControl = "public, s-max-age=28800" ∧
    (respond .decodeFailed).cacheControl = "public, s-max-age=604800" ∧
    (respond .resizeFailed).cacheControl = "public, s-max-age=28800" ∧
    handler ⟨none, some "imgs".toList⟩
      ⟨fun _ => .ok [7], fun _ => .netErr, fun _ => none, true⟩
      ⟨none, none, none, none⟩ "/pic.jpg".toList
      = some ⟨500, "public, s-max-age=604800", none⟩ ∧
    "public, s-max-age=2592000" ≠ "public, s-maxage=2592000" ∧
    "public, s-max-age=28800" ≠ "public, s-maxage=28800" ∧
    "public, s-max-age=604800" ≠ "public, s-maxage=604800" := by
  refine ⟨rfl, rfl, rfl, rfl, rfl, ?_, ?_, ?_⟩ <;> decide

/-- Claim C5: whenever the pipeline completes with an outcome, the HTTP
status of the response is a function of that outcome alone — 200 on
success, 404 when no source yielded bytes, 500 for a decode failure and
500 for a resize failure. -/
theorem C5_status_determined_by_outcome (cfg : Cli) (env : Env) (p : Params)
    (path : List Char) (o : Outcome) (h : pipeline cfg env p path = some o) :
    handler cfg env p path = some (respond o) ∧
    (respond o).status =
      (match o with
        | .success _ _ _ _ => 200
        | .sourceNotFound => 404
        | .decodeFailed => 500
        | .resizeFailed => 500) := by
  refine ⟨by rw [handler, h]; rfl, ?_⟩
  cases o <;> rfl

/-- Witness for C5 at a concrete source-not-found run. -/
theorem C5_status_witness :
    handler ⟨none, none⟩
      ⟨fun _ => .err true, fun _ => .netErr, fun _ => none, true⟩
      ⟨none, none, none, none⟩ "/x".toList = some (respond .sourceNotFound) ∧
    (respond Outcome.sourceNotFound).status = 404 :=
  C5_status_determined_by_outcome ⟨none, none⟩
    ⟨fun _ => .err true, fun _ => .netErr, fun _ => none, true⟩
    ⟨none, none, none, none⟩ "/x".toList .sourceNotFound rfl

/-- Claim C6: the local filesystem takes priority — when the local read at
`base_directory + relative_path` succeeds, the acquired bytes are exactly
the local bytes and the remote origin is never contacted (the boolean in
`acquire` records remote contact). -/
theorem C6_local_source_priority (cfg : Cli) (env : Env) (path : List Char) :
    (∀ folder data, cfg.local_folder = some folder →
      env.fs (pathPush folder path) = .ok data →
      localLookup cfg env path = some data ∧
      acquire cfg env path = some (some data, false)) ∧
    (∀ b, acquire cfg env path = some (b, true) →
      localLookup cfg env path = none) := by
  constructor
  · intro folder data h1 h2
    have hl : localLookup cfg env path = some data := by
      simp only [localLookup, h1, h2]
    exact ⟨hl, by simp only [acquire, hl]⟩
  · intro b hb
    cases hll : localLookup cfg env path with
    | none => rfl
    | some d =>
      have hacq : acquire cfg env path = some (some d, false) := by
        simp only [acquire, hll]
      rw [hacq] at hb
      exact absurd hb (by simp)

/-- Witness for C6 with a concrete configuration and filesystem. -/
theorem C6_local_source_priority_witness :
    localLookup ⟨some "http://cdn".toList, some "dir".toList⟩
      ⟨fun _ => .ok [9], fun _ => .success [4], fun _ => some (2, 2), true⟩
      "/a.png".toList = some [9] ∧
    acquire ⟨some "http://cdn".toList, some "dir".toList⟩
      ⟨fun _ => .ok [9], fun _ => .success [4], fun _ => some (2, 2), true⟩
      "/a.png".toList = some (some [9], false) :=
  (C6_local_source_priority ⟨some "http://cdn".toList, some "dir".toList⟩
    ⟨fun _ => .ok [9], fun _ => .success [4], fun _ => some (2, 2), true⟩
    "/a.png".toList).1 "dir".toList [9] rfl rfl

/-- Claim C7: a local read failure whose kind is not NotFound does not
abort the request — the handler behaves exactly as if no local directory
were configured, falling through to the remote origin. -/
theorem C7_local_error_treated_as_miss (cfg : Cli) (env : Env) (p : Params)
    (path folder : List Char) (h1 : cfg.local_folder = some folder)
    (h2 : env.fs (pathPush folder path) = .err false) :
    handler cfg env p path = handler ⟨cfg.remote_cdn, none⟩ env p path := by
  have hl : localLookup cfg env path = none := by
    simp only [localLookup, h1, h2]
  have hr : localLookup ⟨cfg.remote_cdn, none⟩ env path = none := rfl
  simp only [handler, pipeline, acquire, hl, hr]

/-- Witness for C7: with an I/O-failing local directory the request is
served from the remote origin all the same. -/
theorem C7_local_error_treated_as_miss_witness :
    handler ⟨some "http://cdn".toList, some "dir".toList⟩
      ⟨fun _ => .err false, fun _ => .success [4], fun _ => some (2, 2), true⟩
      ⟨none, none, none, none⟩ "/a.png".toList
    = handler ⟨some "http://cdn".toList, none⟩
      ⟨fun _ => .err false, fun _ => .success [4], fun _ => some (2, 2), true⟩
      ⟨none, none, none, none⟩ "/a.png".toList :=
  C7_local_error_treated_as_miss _ _ _ _ _ rfl rfl

/-- Claim C9: the long query-parameter names deterministically win over the
short aliases (`Option::or` keeps the first operand): with `width` present
the value of `w` is irrelevant, and with `height` present the value of `h`
is irrelevant, whatever the supplied values. -/
theorem C9_long_alias_precedence (srcW srcH a b c d : ℕ)
    (ho hs wo ws : Option ℕ) :
    planDims srcW srcH ⟨some a, ho, some b, hs⟩
      = planDims srcW srcH ⟨some a, ho, none, hs⟩ ∧
    planDims srcW srcH ⟨wo, some c, ws, some d⟩
      = planDims srcW srcH ⟨wo, some c, ws, none⟩ :=
  ⟨rfl, rfl⟩

/-- Claim C10: with the remote base URL configured as the empty string,
any request whose local lookup yields no bytes panics at
`url.chars().last().unwrap()` (`main.rs` line 119) instead of producing an
outcome. -/
theorem C10_empty_remote_base_panics (cfg : Cli) (env : Env) (p : Params)
    (path : List Char) (h1 : cfg.remote_cdn = some [])
    (h2 : localLookup cfg env path = none) :
    handler cfg env p path = none := by
  simp only [handler, pipeline, acquire, h2, h1, joinUrl]
  rfl

/-- Witness for C10 at a concrete configuration with an empty remote URL
and no local directory. -/
theorem C10_empty_remote_base_panics_witness :
    handler ⟨some [], none⟩
      ⟨fun _ => .ok [1], fun _ => .netErr, fun _ => some (2, 2), true⟩
      ⟨none, none, none, none⟩ "/a".toList = none :=
  C10_empty_remote_base_panics _ _ _ _ rfl rfl

/-- Claim C3 counterexample: for a 2×3 source with only `width=1`
requested, the exact ratio computation gives height 3/2; the code's
`as u32` truncation produces height 1, while the nearest-integer,
ties-away-from-zero rounding the claim states produces 2. -/
theorem C3_rounding_counterexample :
    planDims 2 3 ⟨some 1, none, none, none⟩ = (1, 1) ∧
    specScaledDim 2 3 1 = 2 := by
  constructor
  · show (1, f32toU32 (scaledDim 2 3 1)) = (1, 1)
    rw [scaledDim_2_3_1]
    have h32 : ⌊(3:ℚ)/2⌋ = 1 := by norm_num
    rw [f32toU32, h32]
    rfl
  · rw [specScaledDim, scaledDim_2_3_1, roundHalfAwayFromZero,
      if_pos (by norm_num : (0:ℚ) ≤ 3/2)]
    norm_num

/-- Claim C3 (amended): when exactly one requested dimension is supplied,
the other target dimension is the `f32` product
`source_other ×f32 (requested ÷f32 source_given)` truncated toward zero —
the planner returns exactly the integer `t` with `t ≤ x < t + 1` for that
product `x` (whenever it fits in `u32`), not the nearest-integer
rounding. -/
theorem C3_truncation_not_rounding (srcW srcH reqW reqH : ℕ)
    (hw : scaledDim srcW srcH reqW < 2 ^ 32)
    (hh : scaledDim srcH srcW reqH < 2 ^ 32) :
    (∃ t : ℕ, planDims srcW srcH ⟨some reqW, none, none, none⟩ = (reqW, t) ∧
      (t : ℚ) ≤ scaledDim srcW srcH reqW ∧ scaledDim srcW srcH reqW < t + 1) ∧
    (∃ t : ℕ, planDims srcW srcH ⟨none, some reqH, none, none⟩ = (t, reqH) ∧
      (t : ℚ) ≤ scaledDim srcH srcW reqH ∧ scaledDim srcH srcW reqH < t + 1) := by
  constructor
  · obtain ⟨hle, hlt⟩ := f32toU32_trunc _ (scaledDim_nonneg srcW srcH reqW) hw
    exact ⟨f32toU32 (scaledDim srcW srcH reqW), rfl, hle, hlt⟩
  · obtain ⟨hle, hlt⟩ := f32toU32_trunc _ (scaledDim_nonneg srcH srcW reqH) hh
    exact ⟨f32toU32 (scaledDim srcH srcW reqH), rfl, hle, hlt⟩

/-- Witness for the amended C3 on a 2×2 source with one requested
dimension of 1 on each axis. -/
theorem C3_truncation_not_rounding_witness :
    (∃ t : ℕ, planDims 2 2 ⟨some 1, none, none, none⟩ = (1, t) ∧
      (t : ℚ) ≤ scaledDim 2 2 1 ∧ scaledDim 2 2 1 < t + 1) ∧
    (∃ t : ℕ, planDims 2 2 ⟨none, some 1, none, none⟩ = (t, 1) ∧
      (t : ℚ) ≤ scaledDim 2 2 1 ∧ scaledDim 2 2 1 < t + 1) :=
  C3_truncation_not_rounding 2 2 1 1
    (by rw [scaledDim_2_2_1]; norm_num) (by rw [scaledDim_2_2_1]; norm_num)

/-- Claim C8: for an 800×600 source, `?width=400` produces the 400×300
success outcome with status 200 and `Content-Type: image/jpeg`, and no
query parameters produce target dimensions 200×150. -/
theorem C8_concrete_scenarios :
    pipeline ⟨none, some "imgs".toList⟩
      ⟨fun _ => .ok [7], fun _ => .netErr, fun _ => some (800, 600), true⟩
      ⟨some 400, none, none, none⟩ "/pic.jpg".toList
      = some (.success 800 600 400 300) ∧
    handler ⟨none, some "imgs".toList⟩
      ⟨fun _ => .ok [7], fun _ => .netErr, fun _ => some (800, 600), true⟩
      ⟨some 400, none, none, none⟩ "/pic.jpg".toList
      = some ⟨200, "public, s-max-age=2592000", some "image/jpeg"⟩ ∧
    planDims 800 600 ⟨none, none, none, none⟩ = (200, 150) := by
  have hplan : planDims 800 600 ⟨some 400, none, none, none⟩ = (400, 300) := by
    show (400, f32toU32 (scaledDim 800 600 400)) = (400, 300)
    rw [scaledDim_800_600_400]
    have h300 : ⌊(300:ℚ)⌋ = 300 := by norm_num
    rw [f32toU32, h300]
    rfl
  have hpipe : pipeline ⟨none, some "imgs".toList⟩
      ⟨fun _ => .ok [7], fun _ => .netErr, fun _ => some (800, 600), true⟩
      ⟨some 400, none, none, none⟩ "/pic.jpg".toList
      = some (.success 800 600 400 300) := by
    simp [pipeline, acquire, localLookup, hplan]
  refine ⟨hpipe, ?_, rfl⟩
  rw [handler, hpipe]
  rfl

/-- Claim C4 counterexample: a configured base ending in two slashes is
left with both of them — the code inspects only the final character — so
the claim's "exactly one separating slash for every base" fails. -/
theorem C4_two_slash_counterexample :
    joinUrl "http://cdn//".toList "/img.png".toList
      = some "http://cdn//img.png".toList ∧
    oneSlashJoin "http://cdn//".toList "/img.png".toList
      = "http://cdn/img.png".toList ∧
    "http://cdn//img.png".toList ≠ "http://cdn/img.png".toList := by
  refine ⟨?_, ?_, ?_⟩ <;> decide

/-- Claim C4 (amended): for a non-empty base ending in at most one slash
and a request path with exactly one leading slash, the constructed URL is
the base and the path joined with exactly one separating slash, regardless
of whether the base ends with one. -/
theorem C4_single_separating_slash (base rest : List Char) (h1 : base ≠ [])
    (h2 : base.reverse.take 2 ≠ ['/', '/']) (h3 : rest.head? ≠ some '/') :
    joinUrl base ('/' :: rest) = some (oneSlashJoin base ('/' :: rest)) := by
  have hdl : dropLeadingSlashes ('/' :: rest) = rest := by
    rw [dropLeadingSlashes]
    cases rest with
    | nil => simp
    | cons r rs =>
      have hr : r ≠ '/' := fun hcontra => h3 (by rw [hcontra]; rfl)
      simp [hr]
  cases hrev : base.reverse with
  | nil => exact absurd (List.reverse_eq_nil_iff.mp hrev) h1
  | cons c t =>
    have hbase : base = t.reverse ++ [c] := by
      have h' := congrArg List.reverse hrev
      rw [List.reverse_reverse, List.reverse_cons] at h'
      exact h'
    have hlast : base.getLast? = some c := by
      have h' := List.head?_reverse base
      rw [hrev] at h'
      exact h'.symm
    by_cases hc : c = '/'
    · subst hc
      have ht : t.head? ≠ some '/' := by
        intro hth
        apply h2
        rw [hrev]
        cases t with
        | nil => simp at hth
        | cons a as =>
          simp only [List.head?_cons, Option.some.injEq] at hth
          rw [hth]
          rfl
      have hdt : dropTrailingSlashes base = t.reverse := by
        rw [dropTrailingSlashes, hrev]
        cases t with
        | nil => simp
        | cons a as =>
          have ha : a ≠ '/' := fun hcontra => ht (by rw [hcontra]; rfl)
          simp [ha]
      simp only [joinUrl, hlast]
      rw [if_pos trivial, if_neg (by simp : ¬('/' :: rest) = [])]
      rw [oneSlashJoin, hdl, hdt, hbase]
      simp [List.append_assoc]
    · have hdt : dropTrailingSlashes base = base := by
        rw [dropTrailingSlashes, hrev]
        simp only [List.dropWhile_cons]
        rw [if_neg (by simp [hc])]
        rw [← hrev, List.reverse_reverse]
      simp only [joinUrl, hlast]
      rw [if_neg hc]
      rw [oneSlashJoin, hdl, hdt]

/-- Witness for the amended C4: base without a trailing slash and path
`/a.jpg`. -/
theorem C4_single_separating_slash_witness :
    joinUrl "http://cdn".toList ('/' :: "a.jpg".toList)
      = some (oneSlashJoin "http://cdn".toList ('/' :: "a.jpg".toList)) :=
  C4_single_separating_slash "http://cdn".toList "a.jpg".toList
    (by decide) (by decide) (by decide)

end ImageResize
